import Mathlib

/-!
# Verification of the Graphshell review-automation scripts

Shallow embedding of the review-staleness decision engine, the
keyword-driven context selector and the orchestrator dispatch from
`.github/scripts/claude_review.py`, and of the license-expression
acceptance check from `scripts/dev/license_gate.py`.

Timestamps are modelled as integers (ISO instants are totally ordered;
only order comparisons are used by the code).  The GitHub API surface is
modelled as a record of pure query functions, and the design-doc
filesystem as a partial map from paths to contents.
-/

namespace ClaudeReview

/-- Marker embedded in every review comment, `REVIEW_MARKER` in the source. -/
def REVIEW_MARKER : String := "<!-- claude-review -->"

/-- A comment previously posted to a PR or issue: only its body and its
`updated_at` instant are consulted by the engine. -/
structure Comment where
  body : String
  updatedAt : Int
deriving DecidableEq, Repr

/-- Substring containment on character lists (Python's `needle in hay`). -/
def containsSub (needle hay : List Char) : Bool :=
  hay.tails.any (fun t => needle.isPrefixOf t)

/-- `REVIEW_MARKER in c.get("body", "")`: does the comment carry the marker? -/
def hasMarker (c : Comment) : Bool :=
  containsSub REVIEW_MARKER.data c.body.data

/-- `get_last_claude_review`: scan the comment list from the end and return
the first (i.e. positionally last) comment whose body contains the marker. -/
def get_last_claude_review (comments : List Comment) : Option Comment :=
  comments.reverse.find? hasMarker

/-- One commit of a PR: the `commit.committer.date` and `commit.author.date`
fields, either possibly absent. -/
structure Commit where
  committerDate : Option Int
  authorDate : Option Int
deriving DecidableEq, Repr

/-- `get_pr_latest_commit_time`: `None` on an empty commit list, otherwise the
maximum over the per-commit timestamps `committer.date or author.date`
(commits contributing no timestamp are skipped; all skipped gives `None`). -/
def get_pr_latest_commit_time (commits : List Commit) : Option Int :=
  if commits.isEmpty then none
  else
    let times := commits.filterMap (fun c => c.committerDate.orElse (fun _ => c.authorDate))
    times.max?

/-- The GitHub API surface consumed by the staleness oracle and the
orchestrator, as pure per-number query functions plus the results of the
label scans. -/
structure Gh where
  prFiles : Nat → List String
  prComments : Nat → List Comment
  prCommits : Nat → List Commit
  issueComments : Nat → List Comment
  labeledPRs : List Nat
  labeledIssues : List Nat

/-- `should_review_pr`: force wins; a PR with no changed files is skipped;
a never-reviewed PR is reviewed; otherwise review iff the latest commit
timestamp is strictly later than the last review comment's `updated_at`
(no determinable commit timestamp means no review). -/
def should_review_pr (gh : Gh) (n : Nat) (force : Bool) : Bool :=
  if force then true
  else if (gh.prFiles n).isEmpty then false
  else
    match get_last_claude_review (gh.prComments n) with
    | none => true
    | some lastReview =>
      match get_pr_latest_commit_time (gh.prCommits n) with
      | none => false
      | some t => decide (lastReview.updatedAt < t)

/-- `should_review_issue`: force wins; otherwise review iff no prior
marker-bearing comment exists. -/
def should_review_issue (gh : Gh) (n : Nat) (force : Bool) : Bool :=
  if force then true
  else (get_last_claude_review (gh.issueComments n)).isNone

/-- A trivial GitHub state with one PR (number 1) that has one changed file,
no comments and no commits; used as concrete input for witnesses. -/
def ghOnePR : Gh where
  prFiles := fun _ => ["src/lib.rs"]
  prComments := fun _ => []
  prCommits := fun _ => []
  issueComments := fun _ => []
  labeledPRs := [1]
  labeledIssues := []

/-- `find?` skips a block of elements on which the predicate is false. -/
theorem find?_append_of_all_neg {α : Type} (p : α → Bool) (l₁ l₂ : List α)
    (h : ∀ x ∈ l₁, p x = false) : (l₁ ++ l₂).find? p = l₂.find? p := by
  induction l₁ with
  | nil => rfl
  | cons a as ih =>
    have ha : p a = false := h a (List.mem_cons_self a as)
    simp only [List.cons_append, List.find?, ha]
    exact ih (fun x hx => h x (List.mem_cons_of_mem a hx))

/-- `get_last_claude_review` returns `none` exactly when no comment carries
the marker. -/
theorem get_last_claude_review_eq_none (comments : List Comment) :
    get_last_claude_review comments = none ↔ ∀ c ∈ comments, hasMarker c = false := by
  unfold get_last_claude_review
  rw [List.find?_eq_none]
  constructor
  · intro h c hc
    exact Bool.eq_false_iff.mpr (h c (List.mem_reverse.mpr hc))
  · intro h c hc
    exact Bool.eq_false_iff.mp (h c (List.mem_reverse.mp hc))

/-- Modelled from the spec: "among those [comments carrying the marker], the
one with the latest `updatedAt` is the last automated review".  Spec-side
definition, for comparison against `get_last_claude_review` (which the source
implements as a positional reversed-list scan).  On ties the earlier-listed
comment is kept; the comparison input below uses distinct timestamps. -/
def lastReviewByTimestamp (comments : List Comment) : Option Comment :=
  (comments.filter hasMarker).foldl
    (fun acc c =>
      match acc with
      | none => some c
      | some b => if b.updatedAt < c.updatedAt then some c else some b)
    none

/-- A marker-bearing comment listed first but carrying the later timestamp. -/
def cFirst : Comment := ⟨"<!-- claude-review --> current review", 10⟩

/-- A marker-bearing comment listed last but carrying the earlier timestamp. -/
def cSecond : Comment := ⟨"<!-- claude-review --> stale review", 5⟩

/-- A PR state whose fetched comment order disagrees with timestamp order:
the marker comment with the latest `updatedAt` (time 10) is listed first,
a marker comment with time 5 is listed last, and the latest commit is at 7. -/
def ghOutOfOrder : Gh where
  prFiles := fun _ => ["src/lib.rs"]
  prComments := fun _ => [cFirst, cSecond]
  prCommits := fun _ => [⟨some 7, none⟩]
  issueComments := fun _ => []
  labeledPRs := [1]
  labeledIssues := []

/-- C1 counterexample: with two marker-bearing comments fetched out of
timestamp order, `get_last_claude_review` picks the positionally last comment
(`updatedAt` 5), not the one with the latest `updatedAt` (10) that the
spec-side `lastReviewByTimestamp` picks; consequently `should_review_pr`
answers `true` for a commit at time 7, although 7 is not later than the
latest marker comment's `updatedAt`. -/
theorem lastReview_not_latest_timestamp_cex :
    hasMarker cFirst = true ∧ hasMarker cSecond = true ∧
    cSecond.updatedAt < cFirst.updatedAt ∧
    get_last_claude_review [cFirst, cSecond] = some cSecond ∧
    lastReviewByTimestamp [cFirst, cSecond] = some cFirst ∧
    should_review_pr ghOutOfOrder 1 false = true ∧
    ¬ (cFirst.updatedAt < 7) := by
  refine ⟨by decide, by decide, by decide, by decide, by decide, ?_, by decide⟩
  decide

/-- C1 amended: the "last automated review" that `needsReview` bases its
decision on is the marker-bearing comment that occurs last in the fetched
comment list — positional order, not `updatedAt` order: whenever a
marker-bearing comment `c` is followed only by marker-free comments,
`get_last_claude_review` returns `c`, regardless of every timestamp. -/
theorem lastReview_last_marker_in_page (pre : List Comment) (c : Comment)
    (post : List Comment) (hc : hasMarker c = true)
    (hpost : post.all (fun d => !hasMarker d) = true) :
    get_last_claude_review (pre ++ c :: post) = some c := by
  have hpost' : ∀ d ∈ post.reverse, hasMarker d = false := by
    intro d hd
    have := List.all_eq_true.mp hpost d (List.mem_reverse.mp hd)
    simpa using this
  unfold get_last_claude_review
  rw [List.reverse_append, List.reverse_cons, List.append_assoc,
    List.singleton_append,
    find?_append_of_all_neg hasMarker post.reverse (c :: pre.reverse) hpost',
    List.find?_cons_of_pos _ hc]

/-- Witness for C1's amended theorem at a concrete comment list. -/
theorem lastReview_last_marker_in_page_witness :
    hasMarker cSecond = true ∧
    get_last_claude_review ([cFirst] ++ cSecond :: []) = some cSecond :=
  ⟨by decide, lastReview_last_marker_in_page [cFirst] cSecond [] (by decide) (by decide)⟩

/-- A GitHub state in which the PR's changed-file list is empty. -/
def ghNoFiles : Gh where
  prFiles := fun _ => []
  prComments := fun _ => []
  prCommits := fun _ => []
  issueComments := fun _ => []
  labeledPRs := []
  labeledIssues := []

/-- C3: a PR with an empty changed-file list is never reviewed when the force
flag is unset — for every comment history and commit list, including a PR
never reviewed before — while `force = true` still yields `true`. -/
theorem pr_empty_files_skips (gh : Gh) (n : Nat) (h : gh.prFiles n = []) :
    should_review_pr gh n false = false ∧ should_review_pr gh n true = true := by
  constructor
  · unfold should_review_pr
    simp [h]
  · rfl

/-- Witness for C3 at a concrete GitHub state with no changed files. -/
theorem pr_empty_files_skips_witness :
    ghNoFiles.prFiles 1 = [] ∧
    (should_review_pr ghNoFiles 1 false = false ∧
     should_review_pr ghNoFiles 1 true = true) :=
  ⟨rfl, pr_empty_files_skips ghNoFiles 1 rfl⟩

/-- A PR (number 1) with one changed file, one marker-bearing review comment
at time 5, and one commit at time 7; issue number 2 carries the same
marker-bearing comment. -/
def ghReviewed : Gh where
  prFiles := fun _ => ["src/lib.rs"]
  prComments := fun _ => [⟨"<!-- claude-review --> done", 5⟩]
  prCommits := fun _ => [⟨some 7, none⟩]
  issueComments := fun _ => [⟨"<!-- claude-review --> done", 5⟩]
  labeledPRs := [1]
  labeledIssues := [2]

/-- C4: for a PR with the force flag unset, a non-empty changed-file list and
an existing last automated review `c`: if no commit timestamp can be
determined the answer is `false`; otherwise the answer is `true` iff the
latest commit timestamp is strictly later than `c.updatedAt`. -/
theorem pr_staleness_iff_commit_after_review (gh : Gh) (n : Nat) (c : Comment)
    (hfiles : gh.prFiles n ≠ [])
    (hlast : get_last_claude_review (gh.prComments n) = some c) :
    (get_pr_latest_commit_time (gh.prCommits n) = none →
      should_review_pr gh n false = false) ∧
    (∀ t : Int, get_pr_latest_commit_time (gh.prCommits n) = some t →
      (should_review_pr gh n false = true ↔ c.updatedAt < t)) := by
  have hne : (gh.prFiles n).isEmpty = false := by
    cases hf : gh.prFiles n with
    | nil => exact absurd hf hfiles
    | cons a as => rfl
  constructor
  · intro hnone
    unfold should_review_pr
    simp [hne, hlast, hnone]
  · intro t ht
    unfold should_review_pr
    simp [hne, hlast, ht]

/-- Witness for C4: at the concrete reviewed PR (review at time 5, commit at
time 7), `should_review_pr` answers `true` because 5 < 7. -/
theorem pr_staleness_iff_commit_after_review_witness :
    should_review_pr ghReviewed 1 false = true ↔ (5 : Int) < 7 :=
  (pr_staleness_iff_commit_after_review ghReviewed 1
    ⟨"<!-- claude-review --> done", 5⟩ (by decide) (by decide)).2 7 (by decide)

/-- C5: for an issue with the force flag unset, `should_review_issue` answers
`true` iff none of the issue's comments carries the marker; and the answer
depends on no field of the state other than the issue's comment list (two
states agreeing on the comments get the same answer). -/
theorem issue_review_iff_no_marker (gh gh' : Gh) (n : Nat)
    (hsame : gh.issueComments n = gh'.issueComments n) :
    (should_review_issue gh n false = true ↔
      (gh.issueComments n).all (fun c => !hasMarker c) = true) ∧
    should_review_issue gh n false = should_review_issue gh' n false := by
  constructor
  · unfold should_review_issue
    simp only [Bool.false_eq_true, if_false, Option.isNone_iff_eq_none,
      get_last_claude_review_eq_none, List.all_eq_true, Bool.not_eq_eq_eq_not,
      Bool.not_true]
  · unfold should_review_issue
    rw [hsame]

/-- Witness for C5 at the concrete reviewed issue (one marker comment):
`should_review_issue` answers `false`. -/
theorem issue_review_iff_no_marker_witness :
    (should_review_issue ghReviewed 2 false = true ↔
      (ghReviewed.issueComments 2).all (fun c => !hasMarker c) = true) ∧
    should_review_issue ghReviewed 2 false = should_review_issue ghReviewed 2 false :=
  issue_review_iff_no_marker ghReviewed ghReviewed 2 rfl

/-- Python's `\w` on the lower-cased ASCII text: letters, digits, underscore.
`\W` (used for the wildcard gap) is the complement of this. -/
def isWordChar (c : Char) : Bool := c.isAlphanum || c == '_'

/-- Segmentation performed by `kw.replace(".", r"\W*")`: the literal pieces of
the keyword between the wildcard dots. -/
def splitDot : List Char → List (List Char)
  | [] => [[]]
  | c :: cs =>
    if c = '.' then [] :: splitDot cs
    else
      match splitDot cs with
      | s :: ss => (c :: s) :: ss
      | [] => [[c]]

/-- All suffixes of `t` reachable by consuming zero or more non-word
characters — the positions a greedy-with-backtracking `\W*` can hand over to
the next literal segment. -/
def skipGaps : List Char → List (List Char)
  | [] => [[]]
  | c :: cs => (c :: cs) :: (if isWordChar c then [] else skipGaps cs)

/-- Anchored match of the segment list against `t`: the segments occur in
order starting at the head of `t`, each consecutive pair separated by a run
(possibly empty) of non-word characters, exactly as the regex
`seg₁\W*seg₂\W*…\W*segₙ` matches at a fixed position. -/
def matchSegs : List (List Char) → List Char → Bool
  | [], _ => true
  | [seg], t => seg.isPrefixOf t
  | seg :: rest, t =>
    seg.isPrefixOf t && (skipGaps (t.drop seg.length)).any (matchSegs rest)

/-- `re.search`: the segment pattern matches at some position of `t`. -/
def reSearch (segs : List (List Char)) (t : List Char) : Bool :=
  t.tails.any (fun u => matchSegs segs u)

/-- Python `text.lower()` on the ASCII texts involved. -/
def lowerStr (s : String) : List Char := s.data.map Char.toLower

/-- One keyword test of `select_docs`:
`re.search(kw.replace(".", r"\W*"), text.lower())`. -/
def kwMatchIn (kw text : String) : Bool :=
  reSearch (splitDot kw.data) (lowerStr text)

/-- `ALWAYS_INCLUDE_DOCS`: files always included in the review context. -/
def ALWAYS_INCLUDE_DOCS : List String :=
  [ "design_docs/TERMINOLOGY.md",
    "design_docs/graphshell_docs/implementation_strategy/IMPLEMENTATION_ROADMAP.md",
    "design_docs/graphshell_docs/implementation_strategy/2026-02-24_immediate_priorities.md" ]

/-- `KEYWORD_DOC_MAP`: keyword → strategy doc mapping, in declaration order. -/
def KEYWORD_DOC_MAP : List (List String × String) :=
  [ (["physics", "reheat", "simulation", "force"],
     "design_docs/graphshell_docs/implementation_strategy/2026-02-24_physics_engine_extensibility_plan.md"),
    (["registry", "lens", "layout", "theme", "canvas"],
     "design_docs/graphshell_docs/implementation_strategy/2026-02-22_registry_layer_plan.md"),
    (["traversal", "history", "webview", "url"],
     "design_docs/graphshell_docs/implementation_strategy/2026-02-20_edge_traversal_impl_plan.md"),
    (["render", "radial", "palette", "command", "action"],
     "design_docs/graphshell_docs/implementation_strategy/2026-02-23_graph_interaction_consistency_plan.md"),
    (["diagnostic", "channel", "severity", "observability"],
     "design_docs/graphshell_docs/research/2026-02-24_diagnostics_research.md"),
    (["pane", "tile", "workbench", "split", "tab"],
     "design_docs/graphshell_docs/implementation_strategy/2026-02-22_workbench_tab_semantics_overlay_and_promotion_plan.md"),
    (["graph", "node", "edge", "lasso", "select", "multi"],
     "design_docs/graphshell_docs/research/2026-02-18_graph_ux_research_report.md"),
    (["multi.view", "view.state", "view.id", "graphviewid"],
     "design_docs/graphshell_docs/implementation_strategy/2026-02-22_multi_graph_pane_plan.md"),
    (["embedder", "wry", "verso", "webview"],
     "design_docs/graphshell_docs/implementation_strategy/2026-02-23_wry_integration_strategy.md"),
    (["badge", "tag", "udc", "semantic"],
     "design_docs/graphshell_docs/implementation_strategy/2026-02-23_udc_semantic_tagging_plan.md"),
    (["accessibility", "screen.reader", "graph.reader", "a11y"],
     "design_docs/graphshell_docs/implementation_strategy/2026-02-24_spatial_accessibility_plan.md"),
    (["export", "html", "interactive", "artifact"],
     "design_docs/graphshell_docs/implementation_strategy/2026-02-25_interactive_html_export_plan.md"),
    (["viewport", "culling", "lod", "zoom", "label"],
     "design_docs/graphshell_docs/implementation_strategy/2026-02-24_performance_tuning_plan.md"),
    (["verse", "sync", "peer", "identity", "trust"],
     "design_docs/verse_docs/implementation_strategy/2026-02-18_verse_integration_plan.md"),
    (["settings", "config", "profile"],
     "design_docs/graphshell_docs/implementation_strategy/2026-02-20_settings_architecture_plan.md"),
    (["backlog", "ticket", "stub"],
     "design_docs/graphshell_docs/implementation_strategy/2026-02-25_backlog_ticket_stubs.md") ]

/-- `read_doc`: the file's text, or the literal "not found" placeholder when
the path is missing on disk.  The filesystem is `fs : String → Option String`
(`none` = path does not exist). -/
def read_doc (fs : String → Option String) (path : String) : String :=
  match fs path with
  | some content => content
  | none => "(file not found: " ++ path ++ ")"

/-- One iteration of the `select_docs` loop: if any keyword of the rule
matches the lower-cased text, and the rule's doc is not already selected and
exists on disk, append it. -/
def selStep (fs : String → Option String) (tl : List Char)
    (sel : List String) (rule : List String × String) : List String :=
  if rule.1.any (fun kw => reSearch (splitDot kw.data) tl) then
    if !sel.contains rule.2 && (fs rule.2).isSome then sel ++ [rule.2]
    else sel
  else sel

/-- `select_docs`: start from the always-include list and fold the keyword
rules over the lower-cased text, in declaration order. -/
def select_docs (fs : String → Option String) (text : String) : List String :=
  KEYWORD_DOC_MAP.foldl (selStep fs (lowerStr text)) ALWAYS_INCLUDE_DOCS

/-- C2 counterexample: the wildcard gap `\W*` excludes the underscore (a word
character) and admits the empty run, so input "multi_view" does NOT match the
pattern "multi.view" while "multiview" DOES — the opposite of the claim on
both inputs. -/
theorem wildcard_match_cex :
    kwMatchIn "multi.view" "multi_view" = false ∧
    kwMatchIn "multi.view" "multiview" = true := by
  decide

/-- A match somewhere in `u` is a match somewhere in `pre ++ u`. -/
theorem reSearch_append_left (segs : List (List Char)) (u pre : List Char)
    (h : matchSegs segs u = true) : reSearch segs (pre ++ u) = true := by
  unfold reSearch
  rw [List.any_eq_true]
  exact ⟨u, (List.mem_tails u (pre ++ u)).mpr (List.suffix_append pre u), h⟩

/-- Appending on the right preserves a prefix test. -/
theorem isPrefixOf_append_right (l u v : List Char) (h : l.isPrefixOf u = true) :
    l.isPrefixOf (u ++ v) = true := by
  rw [List.isPrefixOf_iff_prefix] at h ⊢
  exact h.trans (List.prefix_append u v)

/-- A list is among its own gap-skips (consume zero characters). -/
theorem self_mem_skipGaps (v : List Char) : v ∈ skipGaps v := by
  cases v with
  | nil => exact List.mem_singleton.mpr rfl
  | cons c cs => exact List.mem_cons_self _ _

/-- Gap-skipping commutes with appending on the right: every hand-over
position for the wildcard inside `w` is still one inside `w ++ v`. -/
theorem mem_skipGaps_append (w v x : List Char) (h : x ∈ skipGaps w) :
    x ++ v ∈ skipGaps (w ++ v) := by
  induction w with
  | nil =>
    have hx : x = [] := List.mem_singleton.mp h
    subst hx
    exact self_mem_skipGaps v
  | cons c cs ih =>
    unfold skipGaps at h
    rcases List.mem_cons.mp h with hx | hx
    · subst hx
      exact List.mem_cons_self _ _
    · by_cases hw : isWordChar c = true
      · rw [if_pos hw] at hx
        exact absurd hx (List.not_mem_nil x)
      · rw [if_neg hw] at hx
        show x ++ v ∈ skipGaps (c :: (cs ++ v))
        unfold skipGaps
        rw [if_neg hw]
        exact List.mem_cons_of_mem _ (ih hx)

/-- The anchored wildcard match is preserved by appending on the right:
a match consumes a prefix of the text and ignores what follows. -/
theorem matchSegs_append_right :
    ∀ (segs : List (List Char)) (u v : List Char),
      matchSegs segs u = true → matchSegs segs (u ++ v) = true
  | [], _, _, _ => rfl
  | [seg], u, v, h => isPrefixOf_append_right seg u v h
  | seg :: seg2 :: rest, u, v, h => by
    simp only [matchSegs, Bool.and_eq_true, List.any_eq_true] at h ⊢
    obtain ⟨hpre, x, hx, hmatch⟩ := h
    refine ⟨isPrefixOf_append_right seg u v hpre, x ++ v, ?_,
      matchSegs_append_right (seg2 :: rest) x v hmatch⟩
    obtain ⟨w, hw⟩ := List.isPrefixOf_iff_prefix.mp hpre
    subst hw
    rw [List.drop_left] at hx
    rw [List.append_assoc, List.drop_left]
    exact mem_skipGaps_append w v x hx

/-- C2 amended: matching is case-insensitive, and the wildcard token matches
any run — possibly empty — of non-word characters (not alphanumeric and not
underscore): every text containing "multi-view", "multi  view" or
"multiview" matches the pattern "multi.view", while "multi_view" does not
(the underscore is a word character, so it can neither be part of the gap
nor be skipped). -/
theorem wildcard_match_amended :
    (∀ pre post : List Char,
      reSearch (splitDot "multi.view".data) (pre ++ ("multi-view".data ++ post)) = true) ∧
    (∀ pre post : List Char,
      reSearch (splitDot "multi.view".data) (pre ++ ("multi  view".data ++ post)) = true) ∧
    (∀ pre post : List Char,
      reSearch (splitDot "multi.view".data) (pre ++ ("multiview".data ++ post)) = true) ∧
    kwMatchIn "multi.view" "multi_view" = false ∧
    kwMatchIn "multi.view" " multi_view " = false ∧
    kwMatchIn "multi.view" "MULTI-VIEW" = true := by
  refine ⟨?_, ?_, ?_, by decide, by decide, by decide⟩ <;>
    exact fun pre post => reSearch_append_left _ _ pre
      (matchSegs_append_right _ _ post (by decide))

/-- C6: on the empty input text `select_docs` returns exactly the
always-include list — for every filesystem state — in its declared order and
without duplicates.  (Totality and determinism hold by construction: the
selector is a pure function.) -/
theorem selectDocs_empty_text (fs : String → Option String) :
    select_docs fs "" = ALWAYS_INCLUDE_DOCS ∧ (select_docs fs "").Nodup := by
  have h : select_docs fs "" = ALWAYS_INCLUDE_DOCS := rfl
  refine ⟨h, h ▸ ?_⟩
  decide

/-- The `select_docs` fold only ever appends, so the accumulator survives. -/
theorem subset_foldl_selStep (fs : String → Option String) (tl : List Char) :
    ∀ (rules : List (List String × String)) (acc : List String),
      acc ⊆ rules.foldl (selStep fs tl) acc := by
  intro rules
  induction rules with
  | nil => exact fun acc => List.Subset.refl acc
  | cons r rs ih =>
    intro acc
    refine List.Subset.trans ?_ (ih (selStep fs tl acc r))
    unfold selStep
    split
    · split
      · exact List.subset_append_left acc [r.2]
      · exact List.Subset.refl acc
    · exact List.Subset.refl acc

/-- Every path the `select_docs` fold adds beyond the accumulator passed the
existence check. -/
theorem mem_foldl_selStep (fs : String → Option String) (tl : List Char) :
    ∀ (rules : List (List String × String)) (acc : List String) (p : String),
      p ∈ rules.foldl (selStep fs tl) acc → p ∈ acc ∨ (fs p).isSome = true := by
  intro rules
  induction rules with
  | nil => exact fun acc p h => Or.inl h
  | cons r rs ih =>
    intro acc p h
    rcases ih (selStep fs tl acc r) p h with hmem | hsome
    · revert hmem
      unfold selStep
      split
      · split
        case isTrue hcond =>
          intro hmem
          rcases List.mem_append.mp hmem with hacc | hsingle
          · exact Or.inl hacc
          · have hp : p = r.2 := List.mem_singleton.mp hsingle
            have hs : (fs r.2).isSome = true := by
              simp only [Bool.and_eq_true] at hcond
              exact hcond.2
            exact Or.inr (hp ▸ hs)
        case isFalse hcond => exact Or.inl
      · exact Or.inl
    · exact Or.inr hsome

/-- C8: for every filesystem state and input text, (1) every always-include
document appears in the selection — even when missing on disk; (2) every
selected document is either an always-include document or exists on disk, so
a keyword-matched document missing on disk is silently dropped; (3) reading a
missing path yields the literal "not found" placeholder instead of an error.
The selector itself never fails: it is a total function. -/
theorem missing_docs_dropped_always_kept (fs : String → Option String)
    (text path : String) (hpath : fs path = none) :
    ALWAYS_INCLUDE_DOCS.all (fun p => (select_docs fs text).contains p) = true ∧
    (select_docs fs text).all
      (fun p => ALWAYS_INCLUDE_DOCS.contains p || (fs p).isSome) = true ∧
    read_doc fs path = "(file not found: " ++ path ++ ")" := by
  refine ⟨?_, ?_, ?_⟩
  · rw [List.all_eq_true]
    intro p hp
    rw [List.elem_iff]
    exact subset_foldl_selStep fs (lowerStr text) KEYWORD_DOC_MAP
      ALWAYS_INCLUDE_DOCS hp
  · rw [List.all_eq_true]
    intro p hp
    rcases mem_foldl_selStep fs (lowerStr text) KEYWORD_DOC_MAP
        ALWAYS_INCLUDE_DOCS p hp with hmem | hsome
    · rw [Bool.or_eq_true, List.elem_iff]
      exact Or.inl hmem
    · rw [Bool.or_eq_true]
      exact Or.inr hsome
  · unfold read_doc
    rw [hpath]

/-- Witness for C8 at the everywhere-missing filesystem and empty text. -/
theorem missing_docs_dropped_always_kept_witness :
    ALWAYS_INCLUDE_DOCS.all
      (fun p => (select_docs (fun _ => none) "").contains p) = true ∧
    (select_docs (fun _ => none) "").all
      (fun p => ALWAYS_INCLUDE_DOCS.contains p ||
        ((fun _ => (none : Option String)) p).isSome) = true ∧
    read_doc (fun _ => none) "design_docs/TERMINOLOGY.md" =
      "(file not found: " ++ "design_docs/TERMINOLOGY.md" ++ ")" :=
  missing_docs_dropped_always_kept (fun _ => none) "" "design_docs/TERMINOLOGY.md" rfl

/-- One parsed entry of the `REVIEW_TARGETS` list: the source dispatches on
the prefixes `"pr:"` and `"issue:"` and silently skips any other entry
(`if`/`elif` with no `else`). -/
inductive Target where
  | pr (n : Nat)
  | issue (n : Nat)
  | other (s : String)
deriving DecidableEq, Repr

/-- The explicit-target branch of `main`: walk the target list in order,
reviewing each target the staleness oracle approves and counting the posted
reviews (each approved target gets exactly one posted comment). -/
def processTargets (gh : Gh) (force : Bool) (ts : List Target) : Nat :=
  ts.foldl
    (fun reviewed t =>
      match t with
      | .pr n => if should_review_pr gh n force then reviewed + 1 else reviewed
      | .issue n => if should_review_issue gh n force then reviewed + 1 else reviewed
      | .other _ => reviewed)
    0

/-- The scan branch of `main`: all labeled PRs, then all labeled issues, each
reviewed when the staleness oracle approves, accumulating one counter. -/
def scanAll (gh : Gh) (force : Bool) : Nat :=
  gh.labeledIssues.foldl
    (fun reviewed n => if should_review_issue gh n force then reviewed + 1 else reviewed)
    (gh.labeledPRs.foldl
      (fun reviewed n => if should_review_pr gh n force then reviewed + 1 else reviewed)
      0)

/-- The dispatch of `main` after the credential checks: `mode` is the value
read from `REVIEW_MODE` (bound by the source and never consulted again);
`parsedTargets` is the result of `json.loads(REVIEW_TARGETS)` with `none`
standing for a `JSONDecodeError`, which the source turns into the empty
list.  A non-empty target list selects the explicit branch, anything else
the scan branch.  The returned number is the reported count of reviews
posted. -/
def mainRun (_mode : String) (parsedTargets : Option (List Target)) (gh : Gh)
    (force : Bool) : Nat :=
  let targets := parsedTargets.getD []
  if !targets.isEmpty then processTargets gh force targets
  else scanAll gh force

/-- C7 counterexample: with malformed `REVIEW_TARGETS` (`parsedTargets =
none`) and one labeled PR that needs review, the run posts one review — it
falls through to scan mode instead of being a no-op. -/
theorem malformed_targets_not_noop_cex :
    mainRun "explicit" none ghOnePR false = 1 ∧
    mainRun "explicit" none ghOnePR false ≠ 0 := by
  decide

/-- C7 amended: malformed explicit-target JSON falls back to the empty target
list without crashing, and an empty target list selects the scan branch; the
run is therefore a no-op (zero reviews posted) only when the label scan
finds no PRs and no issues. -/
theorem malformed_targets_scan_fallback (mode : String) (gh : Gh) (force : Bool)
    (hpr : gh.labeledPRs = []) (hiss : gh.labeledIssues = []) :
    mainRun mode none gh force = mainRun mode (some []) gh force ∧
    mainRun mode none gh force = scanAll gh force ∧
    mainRun mode none gh force = 0 := by
  refine ⟨rfl, rfl, ?_⟩
  unfold mainRun scanAll
  rw [hpr, hiss]
  rfl

/-- Witness for C7's amended theorem at a state with nothing labeled. -/
theorem malformed_targets_scan_fallback_witness :
    mainRun "scan" none ghNoFiles false = mainRun "scan" (some []) ghNoFiles false ∧
    mainRun "scan" none ghNoFiles false = scanAll ghNoFiles false ∧
    mainRun "scan" none ghNoFiles false = 0 :=
  malformed_targets_scan_fallback "scan" ghNoFiles false rfl rfl

/-- C10: the review-mode configuration value never influences the run — two
runs differing only in `mode` behave identically — and the choice between
the explicit-target branch and the scan branch is determined solely by
whether the parsed explicit target list is non-empty. -/
theorem mode_irrelevant_dispatch (mode1 mode2 : String)
    (p : Option (List Target)) (gh : Gh) (force : Bool) :
    mainRun mode1 p gh force = mainRun mode2 p gh force ∧
    mainRun mode1 p gh force =
      (if !(p.getD []).isEmpty then processTargets gh force (p.getD [])
       else scanAll gh force) :=
  ⟨rfl, rfl⟩

end ClaudeReview

namespace LicenseGate

/-- `ALLOWED_LICENSE_IDS`: SPDX identifiers the gate accepts.  The Python
set is modelled as a list; only membership is ever queried. -/
def ALLOWED_LICENSE_IDS : List String :=
  [ "MIT", "Apache-2.0", "BSD-1-Clause", "BSD-2-Clause", "BSD-3-Clause",
    "ISC", "MPL-2.0", "Zlib", "BSL-1.0", "CC0-1.0", "MIT-0", "NCSA",
    "Unicode-3.0", "Unicode-DFS-2016", "OFL-1.1", "Ubuntu-font-1.0",
    "CDLA-Permissive-2.0", "OpenSSL", "Unlicense", "0BSD" ]

/-- `BANNED_ONLY_IDS`: copyleft-only SPDX identifiers the gate rejects. -/
def BANNED_ONLY_IDS : List String :=
  [ "GPL-2.0", "GPL-2.0-only", "GPL-2.0-or-later",
    "GPL-3.0", "GPL-3.0-only", "GPL-3.0-or-later",
    "AGPL-3.0", "AGPL-3.0-only", "AGPL-3.0-or-later",
    "LGPL-2.1-only", "LGPL-2.1-or-later",
    "LGPL-3.0-only", "LGPL-3.0-or-later" ]

/-- Character class of `TOKEN_RE = [A-Za-z0-9.+-]+`. -/
def tokenClass (c : Char) : Bool :=
  c.isAlphanum || c == '.' || c == '+' || c == '-'

/-- `TOKEN_RE.findall`: the maximal runs of token-class characters, in order.
`acc` holds the reversed characters of the run currently being read. -/
def tokenizeAux : List Char → List Char → List (List Char)
  | [], acc => if acc.isEmpty then [] else [acc.reverse]
  | c :: cs, acc =>
    if tokenClass c then tokenizeAux cs (c :: acc)
    else if acc.isEmpty then tokenizeAux cs []
    else acc.reverse :: tokenizeAux cs []

/-- `extract_tokens`: the `TOKEN_RE` matches of the expression with the
operator words `AND`, `OR`, `WITH` removed.  The Python set is modelled as a
list; only emptiness and membership are ever queried. -/
def extract_tokens (expr : String) : List String :=
  ((tokenizeAux expr.data []).map (fun cs => String.mk cs)).filter
    (fun t => !(t == "AND" || t == "OR" || t == "WITH"))

/-- `is_acceptable_expression`: the gate's verdict and reason for one SPDX
license expression.  The banned check is waived when the raw expression
contains the two-character sequence `"OR"` (Python's `"OR" in license_expr`,
a substring test). -/
def is_acceptable_expression (expr : String) : Bool × String :=
  let tokens := extract_tokens expr
  if tokens.isEmpty then (false, "no SPDX tokens found")
  else
    let has_allowed := tokens.any (fun t => ALLOWED_LICENSE_IDS.contains t)
    let has_banned := tokens.any (fun t => BANNED_ONLY_IDS.contains t)
    if !has_allowed then
      (false, "no allowed license option in expression (" ++ expr ++ ")")
    else if has_banned && !(ClaudeReview.containsSub "OR".data expr.data) then
      (false, "banned copyleft-only expression (" ++ expr ++ ")")
    else (true, "ok")

/-- C9: for every expression with a non-empty token set, the gate accepts
iff some token is an allowed identifier and (no token is a banned
copyleft-only identifier, or the raw expression contains the literal
characters "OR"); and the operator words `AND`, `OR`, `WITH` are never in
the token set. -/
theorem license_acceptance_iff (expr : String) (h : extract_tokens expr ≠ []) :
    ((is_acceptable_expression expr).1 = true ↔
      ((extract_tokens expr).any (fun t => ALLOWED_LICENSE_IDS.contains t) = true ∧
       ((extract_tokens expr).any (fun t => BANNED_ONLY_IDS.contains t) = false ∨
        ClaudeReview.containsSub "OR".data expr.data = true))) ∧
    "AND" ∉ extract_tokens expr ∧ "OR" ∉ extract_tokens expr ∧
    "WITH" ∉ extract_tokens expr := by
  have hne : (extract_tokens expr).isEmpty = false := by
    cases hf : extract_tokens expr with
    | nil => exact absurd hf h
    | cons a as => rfl
  refine ⟨?_, ?_, ?_, ?_⟩
  · simp only [is_acceptable_expression]
    rw [hne]
    generalize (extract_tokens expr).any (fun t => ALLOWED_LICENSE_IDS.contains t) = a
    generalize (extract_tokens expr).any (fun t => BANNED_ONLY_IDS.contains t) = b
    generalize ClaudeReview.containsSub "OR".data expr.data = o
    cases a <;> cases b <;> cases o <;> simp
  · intro hmem
    have := List.of_mem_filter hmem
    simp at this
  · intro hmem
    have := List.of_mem_filter hmem
    simp at this
  · intro hmem
    have := List.of_mem_filter hmem
    simp at this

/-- Witness for C9 at the concrete expression "MIT". -/
theorem license_acceptance_iff_witness :
    ((is_acceptable_expression "MIT").1 = true ↔
      ((extract_tokens "MIT").any (fun t => ALLOWED_LICENSE_IDS.contains t) = true ∧
       ((extract_tokens "MIT").any (fun t => BANNED_ONLY_IDS.contains t) = false ∨
        ClaudeReview.containsSub "OR".data "MIT".data = true))) ∧
    "AND" ∉ extract_tokens "MIT" ∧ "OR" ∉ extract_tokens "MIT" ∧
    "WITH" ∉ extract_tokens "MIT" :=
  license_acceptance_iff "MIT" (by decide)

end LicenseGate
